import Mathlib

/-!
Verification development for the multi-emulator runner (`src/main.py`).

The Python program is shallowly embedded: each function of the source is
translated into a Lean definition of the same name.  External effects
(running `adb`, launching processes, the thread scheduler) are supplied as
explicit inputs (response functions / outcome values), and raised Python
exceptions are modelled with `Except`.  Wall-clock time in the two polling
loops is discretised: the k-th poll of a loop happens at time `2*k`
(the loop sleeps 2 seconds per iteration), and the `while time<timeout`
guard becomes `2*k < timeout`.
-/

namespace CPI

/-- Python `Exception` values that the script can raise or catch. -/
inductive PyErr where
  | runtimeError (msg : String)
  | timeoutError (msg : String)
  | fileNotFoundError (msg : String)
  | otherExc (msg : String)
  deriving Repr, DecidableEq

/-- Result object of `subprocess.run` (a `CompletedProcess`), as consumed by
the script: only the captured output fields and the (never inspected)
return code. -/
structure CmdResult where
  returncode : Int
  stdout : String
  stderr : String
  deriving Repr, DecidableEq

/-! ## Configuration constants (the CONFIG block of `src/main.py`) -/

def BASE_AVD : String := "MyAVD3"

def APK_PATH : String := "C:\\ac\\grab-5-367-200.apk"

def PACKAGE_NAME : String := "com.grabtaxi.passenger"

def RUN_TIME : Nat := 180

def BOOT_TIMEOUT : Nat := 420

def CONCURRENT_LIMIT : Nat := 2

def BASE_URL : String := "https://adswedmedia.com/redirect/manual-offer/1131/user/{userId}/site/Hh1Gk5"

/-! ## Resource allocation (`find_free_emulator_port` and the reservation
loop in `main`) -/

/-- The serial `f"emulator-{port}"` derived from a console port. -/
def serialOf (port : Nat) : String := "emulator-" ++ toString port

/-- The port scan list `range(5554, 5684, 2)`: the 65 even ports
5554, 5556, ..., 5682 in ascending order. -/
def portRange : List Nat := List.range' 5554 65 2

/-- Embedding of `find_free_emulator_port`: the first port of `portRange`
whose derived serial is not in `occupied_serials`; `none` models the
`RuntimeError("No free emulator ports available")` raise. -/
def find_free_emulator_port (occupied_serials : List String) : Option Nat :=
  portRange.find? (fun port => decide (serialOf port ∉ occupied_serials))

/-- The port-reservation loop of `main`: repeatedly call
`find_free_emulator_port` on `existing ∪ {serialOf p | p ∈ reserved}` and
append the result to `reserved` (set union is modelled by list append,
only membership is ever consulted). -/
def reservePortsGo (existing : List String) : Nat → List Nat → Option (List Nat)
  | 0, reserved => some reserved
  | Nat.succ k, reserved =>
    match find_free_emulator_port (existing ++ reserved.map serialOf) with
    | none => none
    | some port => reservePortsGo existing k (reserved ++ [port])

/-- Reserve one port per requested instance, starting from the snapshot
`existing` of live serials (the single `list_adb_devices()` call in
`main`). -/
def reservePorts (total : Nat) (existing : List String) : Option (List Nat) :=
  reservePortsGo existing total []

/-- Clone names of `main`: `f"{BASE_AVD}_copy{i+1}"` for `i in range(total)`. -/
def avdNames (total : Nat) : List String :=
  (List.range total).map (fun i => BASE_AVD ++ "_copy" ++ toString (i + 1))

/-! ## Injectivity of the decimal representation

Needed to show the clone names (and derived serials) are pairwise
distinct.  `Nat.repr` is fuel-based (`Nat.toDigitsCore`); we relate it to
a pure structural-recursion twin and prove the twin injective. -/

/-- Fuel-free twin of `Nat.toDigits 10`. -/
def decDigits (n : Nat) : List Char :=
  if h : n < 10 then [Nat.digitChar n]
  else decDigits (n / 10) ++ [Nat.digitChar (n % 10)]
  decreasing_by
    exact Nat.div_lt_self (by omega) (by omega)

/-- Python `str.strip()` on ASCII text: drop whitespace from both ends. -/
def pyStrip (s : String) : String :=
  (((s.data.dropWhile Char.isWhitespace).reverse.dropWhile
      Char.isWhitespace).reverse).asString

/-! ## Live-endpoint enumeration (`list_adb_devices`) -/

/-- Python `str.splitlines()` on ASCII text: a line break is `\r\n`, a lone
`\r`, or a lone `\n`; a trailing break produces no extra empty line. -/
def pySplitLinesGo : List Char → List Char → List String
  | [], cur => if cur.isEmpty then [] else [cur.asString]
  | '\r' :: '\n' :: rest, cur => cur.asString :: pySplitLinesGo rest []
  | '\r' :: rest, cur => cur.asString :: pySplitLinesGo rest []
  | '\n' :: rest, cur => cur.asString :: pySplitLinesGo rest []
  | c :: rest, cur => pySplitLinesGo rest (cur ++ [c])

def pySplitLines (s : String) : List String :=
  pySplitLinesGo s.data []

/-- Python `str.split()` with no argument: split on whitespace runs,
discarding empty pieces. -/
def pySplitWsGo : List Char → List Char → List String
  | [], cur => if cur.isEmpty then [] else [cur.asString]
  | c :: rest, cur =>
    if c.isWhitespace then
      if cur.isEmpty then pySplitWsGo rest []
      else cur.asString :: pySplitWsGo rest []
    else pySplitWsGo rest (cur ++ [c])

def pySplitWs (s : String) : List String :=
  pySplitWsGo s.data []

/-- The body of the device loop: `parts = line.split()`; if there are at
least two fields and the second is `"device"`, add the first to the set
(list membership models set membership). -/
def addDeviceLine (devs : List String) (line : String) : List String :=
  match pySplitWs line with
  | s0 :: s1 :: _ =>
    if s1 = "device" then (if s0 ∈ devs then devs else devs ++ [s0]) else devs
  | _ => devs

/-- Embedding of `list_adb_devices`: `none`-like `.error` input models
`run_cmd(["adb","devices"], ...)` raising, which the source turns into the
empty set; otherwise the header line of `out.strip().splitlines()` is
skipped and serials in `"device"` state are collected. -/
def list_adb_devices (cmd : Except PyErr CmdResult) : List String :=
  match cmd with
  | .error _ => []
  | .ok r =>
    ((pySplitLines (pyStrip r.stdout)).drop 1).foldl addDeviceLine []


/-! ## Readiness waiter (`wait_for_serial`, `wait_for_boot_complete`)

Each loop `while time.time() - start < timeout: <check>; time.sleep(2)` is
discretised: the k-th check runs at elapsed time `2*k`, so the guard is
`2*k < timeout`.  The `TimeoutError` raises are modelled by the dedicated
timeout constructors, which also record how many polls were performed. -/

/-- Outcome of the Discovery phase: either the serial was seen on poll `k`
(0-based), or the loop timed out after `polls` polls. -/
inductive DiscoveryResult where
  | found (k : Nat)
  | discoveryTimeout (polls : Nat)
  deriving Repr, DecidableEq

/-- The polling loop of `wait_for_serial`, at poll index `k`.  `enum j` is
the result of the `list_adb_devices()` call made on poll `j`. -/
def wait_for_serial_go (serial : String) (enum : Nat → List String)
    (timeout : Nat) (k : Nat) : DiscoveryResult :=
  if h : 2 * k < timeout then
    if serial ∈ enum k then .found k
    else wait_for_serial_go serial enum timeout (k + 1)
  else .discoveryTimeout k
  termination_by timeout - 2 * k
  decreasing_by omega

/-- Embedding of `wait_for_serial`. -/
def wait_for_serial (serial : String) (timeout : Nat)
    (enum : Nat → List String) : DiscoveryResult :=
  wait_for_serial_go serial enum timeout 0

/-- Outcome of the Boot phase. -/
inductive BootResult where
  | booted (k : Nat)
  | bootTimeout (polls : Nat)
  deriving Repr, DecidableEq

/-- The test `r.stdout and r.stdout.strip() == "1"` on a `getprop` result:
a non-empty capture whose stripped value is the literal `"1"`. -/
def bootSignal (r : CmdResult) : Bool :=
  decide (r.stdout ≠ "") && (pyStrip r.stdout == "1")

/-- The polling loop of `wait_for_boot_complete` at poll index `k`.
`resp j` is the outcome of the `getprop sys.boot_completed` command on poll
`j`; `.error` models an exception from `run_cmd`, which the source catches
with `except Exception: pass` and treats as one more silent poll. -/
def wait_for_boot_complete_go (resp : Nat → Except PyErr CmdResult)
    (timeout : Nat) (k : Nat) : BootResult :=
  if h : 2 * k < timeout then
    match resp k with
    | .ok r =>
      if bootSignal r then .booted k
      else wait_for_boot_complete_go resp timeout (k + 1)
    | .error _ => wait_for_boot_complete_go resp timeout (k + 1)
  else .bootTimeout k
  termination_by timeout - 2 * k
  decreasing_by all_goals omega

/-- Embedding of `wait_for_boot_complete`. -/
def wait_for_boot_complete (timeout : Nat)
    (resp : Nat → Except PyErr CmdResult) : BootResult :=
  wait_for_boot_complete_go resp timeout 0

/-- Whether poll `k` of the Boot phase observes the boot-complete signal:
the command must have returned (not raised) and satisfied `bootSignal`. -/
def bootOk (resp : Nat → Except PyErr CmdResult) (k : Nat) : Bool :=
  match resp k with
  | .ok r => bootSignal r
  | .error _ => false


/-! ## Events, payload driver, instance worker and orchestrator

The trace of a run is the list of externally visible actions.  The
scheduler interleaving of worker threads is irrelevant to the trace
properties stated below (presence/absence and per-worker counts); the
bounded-concurrency property, which does depend on interleaving, is
modelled separately by the `SemStep` transition system. -/

/-- Observable actions of a run. -/
inductive Ev where
  | cloneEv (name : String)
  | acquire
  | launch (name : String) (port : Nat)
  | release
  | viewCmd (serial url : String)
  | sleepEv (secs : Nat)
  | installCmd (serial apk : String)
  | installLog (out err : String)
  | launchCmd (serial pkg : String)
  deriving Repr, DecidableEq

/-- Whether an event is the diagnostic print of the install command's
captured output (`print(f"[adb install] ...")`). -/
def isInstallLog : Ev → Bool
  | .installLog _ _ => true
  | _ => false

/-- Embedding of `open_cpi_and_install`: open the CPI link built from the
drawn `user_id`, sleep 30, install the APK and print its captured output,
sleep 10, launch the package, hold for `run_time`.  The three
`Except PyErr CmdResult` inputs are the outcomes of the three `run_cmd`
calls; only a raised exception (`.error`) interrupts the sequence — a
result's `returncode`/output never branches. -/
def open_cpi_and_install (serial : String) (apk_path : String)
    (package_name : String) (run_time : Nat) (user_id : Nat)
    (viewR installR launchR : Except PyErr CmdResult) :
    List Ev × Except PyErr Unit :=
  let url := BASE_URL.replace "{userId}" (toString user_id)
  match viewR with
  | .error e => ([.viewCmd serial url], .error e)
  | .ok _ =>
    match installR with
    | .error e =>
      ([.viewCmd serial url, .sleepEv 30, .installCmd serial apk_path], .error e)
    | .ok r =>
      match launchR with
      | .error e =>
        ([.viewCmd serial url, .sleepEv 30, .installCmd serial apk_path,
          .installLog r.stdout r.stderr, .sleepEv 10,
          .launchCmd serial package_name], .error e)
      | .ok _ =>
        ([.viewCmd serial url, .sleepEv 30, .installCmd serial apk_path,
          .installLog r.stdout r.stderr, .sleepEv 10,
          .launchCmd serial package_name, .sleepEv run_time], .ok ())

/-- Terminal state of one instance worker: the `except Exception` handler
converts any stage exception into a logged failure. -/
inductive WStatus where
  | succeeded
  | failed (e : PyErr)
  deriving Repr, DecidableEq

/-- External behaviour supplied to one instance worker: whether
`semaphore.acquire()` raises, the outcome of `start_emulator_detached`,
the per-poll responses of the two readiness loops, the drawn random user
id, and the outcomes of the three payload commands. -/
structure WorkerEnv where
  acquireExn : Option PyErr
  startR : Except PyErr Unit
  enum : Nat → List String
  boot : Nat → Except PyErr CmdResult
  userId : Nat
  viewR : Except PyErr CmdResult
  installR : Except PyErr CmdResult
  launchR : Except PyErr CmdResult

/-- The `try:` block of `instance_worker`: returns the events so far, the
`acquired` flag, and the block's outcome.  Mirrors the source order:
acquire, start the emulator process, Discovery phase, Boot phase,
payload. -/
def workerTry (avd_name : String) (port : Nat) (env : WorkerEnv) :
    List Ev × Bool × Except PyErr Unit :=
  match env.acquireExn with
  | some e => ([], false, .error e)
  | none =>
    match env.startR with
    | .error e => ([.acquire], true, .error e)
    | .ok _ =>
      match wait_for_serial (serialOf port) BOOT_TIMEOUT env.enum with
      | .discoveryTimeout _ =>
        ([.acquire, .launch avd_name port], true,
          .error (.timeoutError (serialOf port ++
            " did not appear in adb devices within " ++
            toString BOOT_TIMEOUT ++ "s")))
      | .found _ =>
        match wait_for_boot_complete BOOT_TIMEOUT env.boot with
        | .bootTimeout _ =>
          ([.acquire, .launch avd_name port], true,
            .error (.timeoutError (serialOf port ++
              " did not finish boot within " ++ toString BOOT_TIMEOUT ++ "s")))
        | .booted _ =>
          let pr := open_cpi_and_install (serialOf port) APK_PATH PACKAGE_NAME
            RUN_TIME env.userId env.viewR env.installR env.launchR
          ([.acquire, .launch avd_name port] ++ pr.1, true, pr.2)

/-- Embedding of `instance_worker`: run the `try:` block, convert any
exception into a `Failed` status (`except Exception as e: print(...)`),
and, in `finally:`, release the semaphore iff `acquired` was set. -/
def instance_worker (avd_name : String) (port : Nat) (env : WorkerEnv) :
    List Ev × WStatus :=
  let t := workerTry avd_name port env
  ((if t.2.1 then t.1 ++ [.release] else t.1),
    match t.2.2 with
    | .ok _ => .succeeded
    | .error e => .failed e)

/-- The sequential cloning loop of `main`: `for name in avd_names:
fresh_clone_avd(name)`.  `cloneR` gives each call's outcome; an exception
propagates out of `main` (no handler). -/
def cloneAllGo (cloneR : String → Except PyErr Unit) :
    List String → List Ev → List Ev × Except PyErr Unit
  | [], tr => (tr, .ok ())
  | n :: rest, tr =>
    match cloneR n with
    | .error e => (tr ++ [.cloneEv n], .error e)
    | .ok _ => cloneAllGo cloneR rest (tr ++ [.cloneEv n])

/-- The `RuntimeError` raised by an exhausted port scan. -/
def resourceExhaustedErr : PyErr :=
  .runtimeError "No free emulator ports available"

/-- Embedding of `main` (with `total` already parsed): the `total < 1`
check exits with status 1; cloning and port reservation run before any
worker starts; an exception in either aborts the run (`.error`); otherwise
one worker runs per plan and the script always finishes with exit status
0.  Returns the event trace, the workers' terminal statuses, and the
process outcome. -/
def mainRun (total : Nat) (cloneR : String → Except PyErr Unit)
    (existing : List String) (envs : Nat → WorkerEnv) :
    List Ev × List WStatus × Except PyErr Nat :=
  if total < 1 then ([], [], .ok 1)
  else
    let names := avdNames total
    match cloneAllGo cloneR names [] with
    | (tr, .error e) => (tr, [], .error e)
    | (tr, .ok _) =>
      match reservePorts total existing with
      | none => (tr, [], .error resourceExhaustedErr)
      | some ports =>
        let runs := (List.range total).map (fun i =>
          instance_worker (names.getD i "") (ports.getD i 0) (envs i))
        (tr ++ (runs.map Prod.fst).flatten, runs.map Prod.snd, .ok 0)

/-- A worker environment whose `semaphore.acquire()` raises immediately
(used to instantiate theorems at a concrete input). -/
def stubEnv : WorkerEnv :=
  ⟨some (.otherExc "interrupted"), .ok (), fun _ => [],
    fun _ => .error (.otherExc "adb"), 0,
    .ok ⟨0, "", ""⟩, .ok ⟨0, "", ""⟩, .ok ⟨0, "", ""⟩⟩

/-- The Boot-phase response sequence [error, error, "0", "1"] of the C4
scenario: two raised exceptions, then `getprop` output `"0"`, then
`"1"`. -/
def bootRespSeq : Nat → Except PyErr CmdResult
  | 0 => .error (.otherExc "adb: device offline")
  | 1 => .error (.otherExc "adb: device offline")
  | 2 => .ok ⟨0, "0\n", ""⟩
  | _ => .ok ⟨0, "1\n", ""⟩

/-! ## Bounded-concurrency transition system

`threading.Semaphore(CONCURRENT_LIMIT)` gates the workers: a worker is
`active` exactly while it holds a permit (from `semaphore.acquire()`,
which precedes the emulator launch, to the `finally:` release, which is
the worker's last action).  States of the interleaved system record the
free-permit count and each worker's phase; `SemStep` is one scheduler
step. -/

inductive WPhase where
  | pending
  | active
  | done
  deriving Repr, DecidableEq

structure SemState where
  permits : Nat
  phases : List WPhase
  deriving Repr, DecidableEq

/-- Initial state: `n` free permits (`threading.Semaphore(n)`), `m`
workers none of which has started. -/
def semInit (n m : Nat) : SemState :=
  ⟨n, List.replicate m WPhase.pending⟩

/-- Interleaving steps: a pending worker may acquire a permit when one is
free; an active worker may finish, releasing its permit. -/
inductive SemStep : SemState → SemState → Prop where
  | acquire (s : SemState) (i : Nat) (hi : i < s.phases.length)
      (hph : s.phases.get ⟨i, hi⟩ = WPhase.pending) (hp : 0 < s.permits) :
      SemStep s ⟨s.permits - 1, s.phases.set i WPhase.active⟩
  | release (s : SemState) (i : Nat) (hi : i < s.phases.length)
      (hph : s.phases.get ⟨i, hi⟩ = WPhase.active) :
      SemStep s ⟨s.permits + 1, s.phases.set i WPhase.done⟩

/-- States reachable from the initial state by scheduler steps. -/
def Reach (n m : Nat) (s : SemState) : Prop :=
  Relation.ReflTransGen SemStep (semInit n m) s

/-- Number of workers currently past the launch gate and not yet
terminal, i.e. holding a permit. -/
def activeCount (s : SemState) : Nat :=
  s.phases.countP (fun p => p == WPhase.active)

theorem decDigits_ne_nil (n : Nat) : decDigits n ≠ [] := by
  rw [decDigits]
  split <;> simp

theorem decDigits_eq_concat (n : Nat) :
    decDigits n = (if n < 10 then [] else decDigits (n / 10)) ++ [Nat.digitChar (n % 10)] := by
  rw [decDigits]
  split
  · simp [Nat.mod_eq_of_lt, *]
  · simp [*]

theorem toDigitsCore_eq_decDigits :
    ∀ (fuel n : Nat) (acc : List Char), n < fuel →
      Nat.toDigitsCore 10 fuel n acc = decDigits n ++ acc := by
  intro fuel
  induction fuel with
  | zero => intro n acc h; omega
  | succ f ih =>
    intro n acc h
    simp only [Nat.toDigitsCore]
    by_cases h10 : n / 10 = 0
    · have hn : n < 10 := by omega
      simp only [h10, if_pos rfl]
      rw [decDigits]
      simp [hn, Nat.mod_eq_of_lt hn]
    · have hn : ¬ n < 10 := by omega
      have hlt : n / 10 < f := by omega
      simp only [if_neg h10]
      rw [ih (n / 10) _ hlt]
      rw [decDigits_eq_concat n, if_neg hn]
      simp

theorem digitChar_inj_lt {a b : Nat} (ha : a < 10) (hb : b < 10)
    (h : Nat.digitChar a = Nat.digitChar b) : a = b := by
  have : ∀ x < 10, ∀ y < 10, Nat.digitChar x = Nat.digitChar y → x = y := by decide
  exact this a ha b hb h

theorem decDigits_inj : ∀ {a b : Nat}, decDigits a = decDigits b → a = b := by
  intro a
  induction a using Nat.strong_induction_on with
  | _ a ih =>
    intro b h
    rw [decDigits_eq_concat a, decDigits_eq_concat b] at h
    have h' := congrArg List.reverse h
    simp only [List.reverse_append, List.reverse_cons, List.reverse_nil, List.nil_append,
      List.cons_append, List.cons.injEq] at h'
    obtain ⟨hd, htl⟩ := h'
    have hmod : a % 10 = b % 10 :=
      digitChar_inj_lt (Nat.mod_lt _ (by omega)) (Nat.mod_lt _ (by omega)) hd
    by_cases ha : a < 10 <;> by_cases hb : b < 10
    · simp only [if_pos ha, if_pos hb] at htl
      omega
    · simp only [if_pos ha, if_neg hb] at htl
      exact absurd htl.symm (by simpa using decDigits_ne_nil (b / 10))
    · simp only [if_neg ha, if_pos hb] at htl
      exact absurd htl (by simpa using decDigits_ne_nil (a / 10))
    · simp only [if_neg ha, if_neg hb] at htl
      have htl' : decDigits (a / 10) = decDigits (b / 10) := by
        have := congrArg List.reverse htl
        simpa using this
      have hdiv : a / 10 = b / 10 :=
        ih (a / 10) (Nat.div_lt_self (by omega) (by omega)) htl'
      omega

theorem natRepr_inj {a b : Nat} (h : Nat.repr a = Nat.repr b) : a = b := by
  have h' : (Nat.toDigits 10 a).asString = (Nat.toDigits 10 b).asString := h
  have hd : Nat.toDigits 10 a = Nat.toDigits 10 b := by
    have := congrArg String.data h'
    simpa [List.asString] using this
  rw [Nat.toDigits, Nat.toDigits,
    toDigitsCore_eq_decDigits (a + 1) a [] (by omega),
    toDigitsCore_eq_decDigits (b + 1) b [] (by omega)] at hd
  simp only [List.append_nil] at hd
  exact decDigits_inj hd

theorem natToString_inj {a b : Nat} (h : toString a = toString b) : a = b :=
  natRepr_inj h

theorem serialOf_inj {a b : Nat} (h : serialOf a = serialOf b) : a = b := by
  have hd := congrArg String.data h
  simp only [serialOf, String.data_append] at hd
  have h' := List.append_cancel_left hd
  exact natToString_inj (String.ext h')

theorem avdNames_nodup (total : Nat) : (avdNames total).Nodup := by
  apply List.Nodup.map
  · intro i j h
    simp only [String.ext_iff, String.data_append] at h
    have h' := List.append_cancel_left h
    have : toString (i + 1) = toString (j + 1) := String.ext h'
    have := natToString_inj this
    omega
  · exact List.nodup_range total

/-! ## Properties of the port allocator -/

theorem portRange_pairwise : portRange.Pairwise (· < ·) := by decide

theorem portRange_facts : ∀ p ∈ portRange, p % 2 = 0 ∧ 5554 ≤ p ∧ p ≤ 5682 := by decide

/-- `List.find?` on an ascending list returns the least satisfying element:
every smaller member fails the predicate. -/
theorem find?_first_of_sorted {l : List Nat} {pred : Nat → Bool} {p : Nat}
    (hs : l.Pairwise (· < ·)) (h : l.find? pred = some p) :
    ∀ q ∈ l, q < p → pred q = false := by
  induction l with
  | nil => simp at h
  | cons a t ih =>
    rw [List.find?_cons] at h
    intro q hq hqp
    cases hpa : pred a with
    | true =>
      rw [hpa] at h
      have hpa' : p = a := by simpa using h.symm
      subst hpa'
      rcases List.mem_cons.mp hq with rfl | hq
      · omega
      · exact absurd (List.rel_of_pairwise_cons hs hq) (by omega)
    | false =>
      rw [hpa] at h
      rcases List.mem_cons.mp hq with rfl | hq
      · exact hpa
      · exact ih hs.of_cons h q hq hqp

/-- What a successful `find_free_emulator_port` guarantees: the returned
port is in the scanned range, its serial is free, and every smaller port of
the range has an occupied serial. -/
theorem find_free_emulator_port_spec {occ : List String} {p : Nat}
    (h : find_free_emulator_port occ = some p) :
    p ∈ portRange ∧ serialOf p ∉ occ ∧
      ∀ q ∈ portRange, q < p → serialOf q ∈ occ := by
  unfold find_free_emulator_port at h
  have hp := List.find?_some h
  simp only [decide_eq_true_eq] at hp
  refine ⟨List.mem_of_find?_eq_some h, hp, ?_⟩
  intro q hq hqp
  have := find?_first_of_sorted portRange_pairwise h q hq hqp
  simpa using this

/-- If every port of the range has an occupied serial, the scan fails
(models the `RuntimeError` raise). -/
theorem find_free_emulator_port_none {occ : List String}
    (hall : ∀ q ∈ portRange, serialOf q ∈ occ) :
    find_free_emulator_port occ = none := by
  apply List.find?_eq_none.mpr
  intro a ha
  simpa using hall a ha

/-- Invariant of the reservation loop: the accumulator is extended by one
first-free port per step. -/
theorem reservePortsGo_spec (existing : List String) :
    ∀ (k : Nat) (reserved ports : List Nat),
      reservePortsGo existing k reserved = some ports →
      (∃ rest, ports = reserved ++ rest) ∧ ports.length = reserved.length + k ∧
      ∀ i, reserved.length ≤ i → ∀ (hi : i < ports.length),
        find_free_emulator_port (existing ++ (ports.take i).map serialOf) =
          some ports[i] := by
  intro k
  induction k with
  | zero =>
    intro reserved ports h
    simp only [reservePortsGo] at h
    obtain rfl : reserved = ports := by simpa using h
    exact ⟨⟨[], by simp⟩, by simp, fun i hle hi => by omega⟩
  | succ k ih =>
    intro reserved ports h
    simp only [reservePortsGo] at h
    cases hf : find_free_emulator_port (existing ++ reserved.map serialOf) with
    | none => rw [hf] at h; exact absurd h (by simp)
    | some p =>
      rw [hf] at h
      obtain ⟨⟨rest, hrest⟩, hlen, hidx⟩ := ih (reserved ++ [p]) ports h
      have hrest' : ports = reserved ++ ([p] ++ rest) := by
        rw [hrest, List.append_assoc]
      refine ⟨⟨[p] ++ rest, hrest'⟩, by simp at hlen ⊢; omega, ?_⟩
      intro i hle hi
      rcases Nat.eq_or_lt_of_le hle with heq | hlt
      · subst heq
        have htake : ports.take reserved.length = reserved := by
          rw [hrest']
          simp [List.take_append]
        have hget? : ports[reserved.length]? = some p := by
          rw [hrest']
          rw [List.getElem?_append_right (Nat.le_refl _)]
          simp
        have hgv := List.getElem?_eq_getElem (l := ports) hi
        have hget : ports[reserved.length] = p :=
          (Option.some.inj (hgv.symm.trans hget?))
        rw [htake, hget]
        exact hf
      · exact hidx i (by simp; omega) hi

/-- Aggregate allocator specification used by the C1 theorem: a successful
reservation run yields `total` pairwise-distinct even in-range ports, each
the least free port given everything allocated before it, and no port's
serial collides with the pre-existing snapshot. -/
theorem reservePorts_spec {total : Nat} {existing : List String} {ports : List Nat}
    (h : reservePorts total existing = some ports) :
    ports.length = total ∧
    (∀ i, ∀ (hi : i < ports.length),
      ports[i] ∈ portRange ∧
      serialOf ports[i] ∉ existing ++ (ports.take i).map serialOf ∧
      ∀ q ∈ portRange, q < ports[i] →
        serialOf q ∈ existing ++ (ports.take i).map serialOf) ∧
    ports.Nodup ∧
    (∀ p ∈ ports, serialOf p ∉ existing) := by
  obtain ⟨_, hlen, hidx⟩ := reservePortsGo_spec existing total [] ports h
  simp only [List.length_nil, Nat.zero_add] at hlen
  have hspec : ∀ i, ∀ (hi : i < ports.length),
      ports[i] ∈ portRange ∧
      serialOf ports[i] ∉ existing ++ (ports.take i).map serialOf ∧
      ∀ q ∈ portRange, q < ports[i] →
        serialOf q ∈ existing ++ (ports.take i).map serialOf := by
    intro i hi
    exact find_free_emulator_port_spec (hidx i (by simp) hi)
  have hne : ∀ i j, ∀ (hi : i < ports.length) (hj : j < ports.length), i < j →
      ports[i] ≠ ports[j] := by
    intro i j hi hj hij heq
    have hj' := (hspec j hj).2.1
    apply hj'
    rw [List.mem_append]
    right
    rw [← heq]
    apply List.mem_map_of_mem
    apply List.getElem?_mem (n := i)
    rw [List.getElem?_take_of_lt hij]
    exact List.getElem?_eq_getElem hi
  refine ⟨hlen, hspec, ?_, ?_⟩
  · rw [List.nodup_iff_getElem?_ne_getElem?]
    intro i j hij hj
    rw [List.getElem?_eq_getElem (by omega), List.getElem?_eq_getElem hj]
    simp only [ne_eq, Option.some.injEq]
    exact hne i j (by omega) hj hij
  · intro p hp
    obtain ⟨i, hi, rfl⟩ := List.mem_iff_getElem.mp hp
    have := (hspec i hi).2.1
    intro hmem
    exact this (List.mem_append_left _ hmem)

/-! ### Discovery-phase lemmas -/

theorem wait_for_serial_go_found_sound {serial : String} {enum : Nat → List String}
    {timeout : Nat} :
    ∀ d k j, d = timeout - 2 * k →
      wait_for_serial_go serial enum timeout k = .found j →
      k ≤ j ∧ 2 * j < timeout ∧ serial ∈ enum j ∧
        ∀ m, k ≤ m → m < j → serial ∉ enum m := by
  intro d
  induction d using Nat.strong_induction_on with
  | _ d ih =>
    intro k j hd hgo
    rw [wait_for_serial_go] at hgo
    split at hgo
    case isTrue h2k =>
      split at hgo
      case isTrue hmem =>
        cases hgo
        exact ⟨Nat.le_refl _, h2k, hmem, fun m h1 h2 => by omega⟩
      case isFalse hmem =>
        obtain ⟨hk1, hj, hmemj, hprev⟩ :=
          ih (timeout - 2 * (k + 1)) (by omega) (k + 1) j rfl hgo
        refine ⟨by omega, hj, hmemj, ?_⟩
        intro m h1 h2
        rcases Nat.eq_or_lt_of_le h1 with rfl | h1'
        · exact hmem
        · exact hprev m h1' h2
    case isFalse h2k => cases hgo

theorem wait_for_serial_go_found_complete {serial : String} {enum : Nat → List String}
    {timeout : Nat} :
    ∀ d k j, d = j - k → k ≤ j → 2 * j < timeout → serial ∈ enum j →
      (∀ m, k ≤ m → m < j → serial ∉ enum m) →
      wait_for_serial_go serial enum timeout k = .found j := by
  intro d
  induction d using Nat.strong_induction_on with
  | _ d ih =>
    intro k j hd hkj hj hmem hprev
    rw [wait_for_serial_go]
    rcases Nat.eq_or_lt_of_le hkj with rfl | hlt
    · rw [dif_pos hj, if_pos hmem]
    · have h2k : 2 * k < timeout := by omega
      rw [dif_pos h2k, if_neg (hprev k (Nat.le_refl _) hlt)]
      exact ih (j - (k + 1)) (by omega) (k + 1) j rfl (by omega) hj hmem
        (fun m h1 h2 => hprev m (by omega) h2)

theorem wait_for_serial_go_timeout {serial : String} {enum : Nat → List String}
    {timeout : Nat} (habs : ∀ m, 2 * m < timeout → serial ∉ enum m) :
    ∀ d k, d = timeout - 2 * k → k ≤ (timeout + 1) / 2 →
      wait_for_serial_go serial enum timeout k =
        .discoveryTimeout ((timeout + 1) / 2) := by
  intro d
  induction d using Nat.strong_induction_on with
  | _ d ih =>
    intro k hd hk
    rw [wait_for_serial_go]
    split
    case isTrue h2k =>
      rw [if_neg (habs k h2k)]
      exact ih (timeout - 2 * (k + 1)) (by omega) (k + 1) rfl (by omega)
    case isFalse h2k =>
      have : k = (timeout + 1) / 2 := by omega
      rw [this]

/-! ### Boot-phase lemmas -/

/-- One-step unfolding of the boot loop expressed through `bootOk`. -/
theorem wait_for_boot_complete_go_eq (resp : Nat → Except PyErr CmdResult)
    (timeout k : Nat) :
    wait_for_boot_complete_go resp timeout k =
      if 2 * k < timeout then
        if bootOk resp k then .booted k
        else wait_for_boot_complete_go resp timeout (k + 1)
      else .bootTimeout k := by
  rw [wait_for_boot_complete_go]
  by_cases h2k : 2 * k < timeout
  · rw [dif_pos h2k, if_pos h2k]
    unfold bootOk
    cases hr : resp k with
    | ok r => by_cases hb : bootSignal r <;> simp [hb]
    | error e => simp
  · rw [dif_neg h2k, if_neg h2k]

theorem wait_for_boot_complete_go_booted_sound {resp : Nat → Except PyErr CmdResult}
    {timeout : Nat} :
    ∀ d k j, d = timeout - 2 * k →
      wait_for_boot_complete_go resp timeout k = .booted j →
      k ≤ j ∧ 2 * j < timeout ∧ bootOk resp j = true ∧
        ∀ m, k ≤ m → m < j → bootOk resp m = false := by
  intro d
  induction d using Nat.strong_induction_on with
  | _ d ih =>
    intro k j hd hgo
    rw [wait_for_boot_complete_go_eq] at hgo
    split at hgo
    case isTrue h2k =>
      split at hgo
      case isTrue hb =>
        cases hgo
        exact ⟨Nat.le_refl _, h2k, hb, fun m h1 h2 => by omega⟩
      case isFalse hb =>
        obtain ⟨hk1, hj, hbj, hprev⟩ :=
          ih (timeout - 2 * (k + 1)) (by omega) (k + 1) j rfl hgo
        refine ⟨by omega, hj, hbj, ?_⟩
        intro m h1 h2
        rcases Nat.eq_or_lt_of_le h1 with rfl | h1'
        · simpa using hb
        · exact hprev m h1' h2
    case isFalse h2k => cases hgo

theorem wait_for_boot_complete_go_booted_complete {resp : Nat → Except PyErr CmdResult}
    {timeout : Nat} :
    ∀ d k j, d = j - k → k ≤ j → 2 * j < timeout → bootOk resp j = true →
      (∀ m, k ≤ m → m < j → bootOk resp m = false) →
      wait_for_boot_complete_go resp timeout k = .booted j := by
  intro d
  induction d using Nat.strong_induction_on with
  | _ d ih =>
    intro k j hd hkj hj hb hprev
    rw [wait_for_boot_complete_go_eq]
    rcases Nat.eq_or_lt_of_le hkj with rfl | hlt
    · rw [if_pos hj, if_pos hb]
    · have h2k : 2 * k < timeout := by omega
      rw [if_pos h2k, if_neg (by simp [hprev k (Nat.le_refl _) hlt])]
      exact ih (j - (k + 1)) (by omega) (k + 1) j rfl (by omega) hj hb
        (fun m h1 h2 => hprev m (by omega) h2)

theorem wait_for_boot_complete_go_timeout {resp : Nat → Except PyErr CmdResult}
    {timeout : Nat} (habs : ∀ m, 2 * m < timeout → bootOk resp m = false) :
    ∀ d k, d = timeout - 2 * k → k ≤ (timeout + 1) / 2 →
      wait_for_boot_complete_go resp timeout k =
        .bootTimeout ((timeout + 1) / 2) := by
  intro d
  induction d using Nat.strong_induction_on with
  | _ d ih =>
    intro k hd hk
    rw [wait_for_boot_complete_go_eq]
    split
    case isTrue h2k =>
      rw [if_neg (by simp [habs k h2k])]
      exact ih (timeout - 2 * (k + 1)) (by omega) (k + 1) rfl (by omega)
    case isFalse h2k =>
      have : k = (timeout + 1) / 2 := by omega
      rw [this]

/-- A serial appears after folding `addDeviceLine` over `lines` iff it was
already present or some line lists it as its first field with `"device"`
as its second field. -/
theorem mem_foldl_addDeviceLine (s : String) :
    ∀ (lines : List String) (init : List String),
      s ∈ lines.foldl addDeviceLine init ↔
        s ∈ init ∨ ∃ line ∈ lines,
          (pySplitWs line)[0]? = some s ∧ (pySplitWs line)[1]? = some "device" := by
  intro lines
  induction lines with
  | nil => simp
  | cons l rest ih =>
    intro init
    rw [List.foldl_cons, ih]
    have hstep : s ∈ addDeviceLine init l ↔
        s ∈ init ∨ ((pySplitWs l)[0]? = some s ∧ (pySplitWs l)[1]? = some "device") := by
      unfold addDeviceLine
      cases hw : pySplitWs l with
      | nil => simp
      | cons s0 tl =>
        cases tl with
        | nil => simp
        | cons s1 tl' =>
          show s ∈ (if s1 = "device" then (if s0 ∈ init then init else init ++ [s0]) else init) ↔
            s ∈ init ∨ (s0 :: s1 :: tl')[0]? = some s ∧ (s0 :: s1 :: tl')[1]? = some "device"
          by_cases hdev : s1 = "device"
          · subst hdev
            rw [if_pos rfl]
            by_cases hmem : s0 ∈ init
            · simp only [if_pos hmem]
              constructor
              · intro h; exact Or.inl h
              · rintro (h | ⟨h0, _⟩)
                · exact h
                · simp only [List.getElem?_cons_zero, Option.some.injEq] at h0
                  rw [h0] at hmem; exact hmem
            · simp only [if_neg hmem, List.mem_append, List.mem_singleton]
              simp only [List.getElem?_cons_zero, List.getElem?_cons_succ,
                Option.some.injEq]
              constructor
              · rintro (h | h)
                · exact Or.inl h
                · exact Or.inr ⟨h.symm, trivial⟩
              · rintro (h | ⟨h0, _⟩)
                · exact Or.inl h
                · exact Or.inr h0.symm
          · rw [if_neg hdev]
            simp only [List.getElem?_cons_zero, List.getElem?_cons_succ,
              Option.some.injEq]
            constructor
            · intro h; exact Or.inl h
            · rintro (h | ⟨_, h1⟩)
              · exact h
              · exact absurd h1 hdev
    rw [hstep]
    simp only [List.mem_cons]
    constructor
    · rintro ((h | h) | ⟨line, hline, hprop⟩)
      · exact Or.inl h
      · exact Or.inr ⟨l, Or.inl rfl, h⟩
      · exact Or.inr ⟨line, Or.inr hline, hprop⟩
    · rintro (h | ⟨line, hline | hline, hprop⟩)
      · exact Or.inl (Or.inl h)
      · exact Or.inl (Or.inr (hline ▸ hprop))
      · exact Or.inr ⟨line, hline, hprop⟩

/-! ## Orchestrator helper lemmas -/

/-- When every `fresh_clone_avd` call succeeds, the cloning loop emits one
clone event per name and succeeds. -/
theorem cloneAllGo_ok (cloneR : String → Except PyErr Unit)
    (hok : ∀ name, cloneR name = .ok ()) :
    ∀ (names : List String) (tr : List Ev),
      cloneAllGo cloneR names tr = (tr ++ names.map Ev.cloneEv, .ok ()) := by
  intro names
  induction names with
  | nil => intro tr; simp [cloneAllGo]
  | cons n rest ih =>
    intro tr
    simp only [cloneAllGo, hok n]
    exact (ih (tr ++ [.cloneEv n])).trans (by rw [List.append_assoc])

/-! ## Claim theorems -/

/-- Claim C1: for every requested `total ≥ 1` and every snapshot of pre-existing
live serials, a completed allocation yields exactly `total` plans with
pairwise-distinct clone names and pairwise-distinct ports, no derived
serial in the pre-existing set, every port an even port of 5554..5682, and
each port the first (smallest) port of the ascending range whose serial is
outside the combined pre-existing-or-already-reserved set. -/
theorem allocation_plans_distinct_and_first_free (total : Nat)
    (existing : List String) (ports : List Nat) (htotal : 1 ≤ total)
    (halloc : reservePorts total existing = some ports) :
    ports.length = total ∧ (avdNames total).length = total ∧
    (avdNames total).Nodup ∧ ports.Nodup ∧
    (∀ p ∈ ports, serialOf p ∉ existing) ∧
    (∀ p ∈ ports, p % 2 = 0 ∧ 5554 ≤ p ∧ p ≤ 5682) ∧
    (∀ i, ∀ hi : i < ports.length,
      ports[i] ∈ portRange ∧
      serialOf ports[i] ∉ existing ++ (ports.take i).map serialOf ∧
      ∀ q ∈ portRange, q < ports[i] →
        serialOf q ∈ existing ++ (ports.take i).map serialOf) := by
  obtain ⟨hlen, hspec, hnodup, hfree⟩ := reservePorts_spec halloc
  refine ⟨hlen, by simp [avdNames], avdNames_nodup total, hnodup, hfree, ?_, hspec⟩
  intro p hp
  apply portRange_facts p
  obtain ⟨i, hi, rfl⟩ := List.mem_iff_getElem.mp hp
  exact (hspec i hi).1

theorem allocation_witness :
    1 ≤ 3 ∧ reservePorts 3 ["emulator-5554"] = some [5556, 5558, 5560] ∧
    ([5556, 5558, 5560] : List Nat).Nodup ∧
    (∀ p ∈ ([5556, 5558, 5560] : List Nat), serialOf p ∉ ["emulator-5554"]) :=
  ⟨by decide, by decide,
    (allocation_plans_distinct_and_first_free 3 ["emulator-5554"]
      [5556, 5558, 5560] (by decide) (by decide)).2.2.2.1,
    (allocation_plans_distinct_and_first_free 3 ["emulator-5554"]
      [5556, 5558, 5560] (by decide) (by decide)).2.2.2.2.1⟩

/-- Claim C2: when the pre-existing live set occupies every port of the range,
one further allocation fails (the scan returns nothing, the reservation
loop raises `ResourceExhausted`), the run aborts with that error, and no
emulator-launch event has occurred: the trace holds only clone events. -/
theorem exhaustion_fails_before_launch (total : Nat) (existing : List String)
    (cloneR : String → Except PyErr Unit) (envs : Nat → WorkerEnv)
    (htotal : 1 ≤ total)
    (hfull : ∀ q ∈ portRange, serialOf q ∈ existing)
    (hclone : ∀ name, cloneR name = .ok ()) :
    find_free_emulator_port existing = none ∧
    reservePorts total existing = none ∧
    mainRun total cloneR existing envs =
      ((avdNames total).map Ev.cloneEv, [], .error resourceExhaustedErr) ∧
    ∀ name port, Ev.launch name port ∉ (avdNames total).map Ev.cloneEv := by
  have h2 : reservePorts total existing = none := by
    obtain ⟨k, rfl⟩ : ∃ k, total = k + 1 := ⟨total - 1, by omega⟩
    simp only [reservePorts, reservePortsGo]
    have hn : find_free_emulator_port (existing ++ ([] : List Nat).map serialOf) =
        none := by
      apply find_free_emulator_port_none
      intro q hq
      exact List.mem_append_left _ (hfull q hq)
    rw [hn]
  refine ⟨find_free_emulator_port_none hfull, h2, ?_, ?_⟩
  · have hlt : ¬ total < 1 := by omega
    unfold mainRun
    simp [hlt, cloneAllGo_ok cloneR hclone, h2]
  · intro name port hmem
    obtain ⟨x, _, hx⟩ := List.mem_map.mp hmem
    simp at hx

theorem exhaustion_witness :
    reservePorts 1 (portRange.map serialOf) = none ∧
    find_free_emulator_port (portRange.map serialOf) = none :=
  ⟨(exhaustion_fails_before_launch 1 (portRange.map serialOf) (fun _ => .ok ())
      (fun _ => stubEnv) (by decide) (fun q hq => List.mem_map_of_mem _ hq)
      (fun _ => rfl)).2.1,
    (exhaustion_fails_before_launch 1 (portRange.map serialOf) (fun _ => .ok ())
      (fun _ => stubEnv) (by decide) (fun q hq => List.mem_map_of_mem _ hq)
      (fun _ => rfl)).1⟩

/-- Claim C3: the Discovery phase returns success on the first poll whose
enumeration contains the target serial (still within the timeout), and a
successful poll always has the serial present — it never succeeds on a
poll where the serial is absent. -/
theorem discovery_first_present_poll (serial : String) (timeout : Nat)
    (enum : Nat → List String) :
    (∀ k, 2 * k < timeout → serial ∈ enum k →
      (∀ j, j < k → serial ∉ enum j) →
      wait_for_serial serial timeout enum = .found k) ∧
    (∀ k, wait_for_serial serial timeout enum = .found k →
      serial ∈ enum k ∧ ∀ j, j < k → serial ∉ enum j) := by
  constructor
  · intro k h2k hmem hprev
    exact wait_for_serial_go_found_complete (k - 0) 0 k rfl (Nat.zero_le k)
      h2k hmem (fun m _ h2 => hprev m h2)
  · intro k hk
    obtain ⟨_, _, hmem, hprev⟩ :=
      wait_for_serial_go_found_sound (timeout - 2 * 0) 0 k rfl hk
    exact ⟨hmem, fun j hj => hprev j (Nat.zero_le j) hj⟩

theorem discovery_witness :
    2 * 0 < BOOT_TIMEOUT ∧
    wait_for_serial "emulator-5554" BOOT_TIMEOUT (fun _ => ["emulator-5554"]) =
      .found 0 :=
  ⟨by decide,
    (discovery_first_present_poll "emulator-5554" BOOT_TIMEOUT
      (fun _ => ["emulator-5554"])).1 0 (by decide) (by decide)
      (fun j hj => absurd hj (Nat.not_lt_zero j))⟩

/-- Claim C4: the Boot phase treats a query execution error as non-terminal: on
the response sequence [error, error, "0", "1"] it neither raises nor
succeeds on polls 0–2 and succeeds exactly on the fourth poll (index 3). -/
theorem boot_error_transient :
    wait_for_boot_complete BOOT_TIMEOUT bootRespSeq = .booted 3 ∧
    (∀ j, j < 3 → bootOk bootRespSeq j = false) ∧
    bootOk bootRespSeq 3 = true := by
  have hprev : ∀ m, m < 3 → bootOk bootRespSeq m = false := by decide
  refine ⟨?_, hprev, by decide⟩
  exact wait_for_boot_complete_go_booted_complete (3 - 0) 0 3 rfl
    (Nat.zero_le 3) (by decide) (by decide) (fun m _ h2 => hprev m h2)

theorem boot_error_transient_witness :
    2 < 3 ∧ bootOk bootRespSeq 2 = false :=
  ⟨by decide, boot_error_transient.2.1 2 (by decide)⟩

/-- Claim C5: when the target condition never becomes true within the timeout,
the Discovery phase ends with its discovery timeout error and the Boot
phase with its boot timeout error, each after exactly `⌈timeout/2⌉` polls,
all of which happened strictly before the timeout elapsed — no poll runs
once it has. -/
theorem readiness_phases_time_out (serial : String) (timeout : Nat)
    (enum : Nat → List String) (resp : Nat → Except PyErr CmdResult)
    (hserial : ∀ k, 2 * k < timeout → serial ∉ enum k)
    (hboot : ∀ k, 2 * k < timeout → bootOk resp k = false) :
    wait_for_serial serial timeout enum =
      .discoveryTimeout ((timeout + 1) / 2) ∧
    wait_for_boot_complete timeout resp = .bootTimeout ((timeout + 1) / 2) ∧
    ∀ j, j < (timeout + 1) / 2 → 2 * j < timeout := by
  refine ⟨?_, ?_, fun j hj => by omega⟩
  · exact wait_for_serial_go_timeout hserial (timeout - 2 * 0) 0 rfl
      (Nat.zero_le _)
  · exact wait_for_boot_complete_go_timeout hboot (timeout - 2 * 0) 0 rfl
      (Nat.zero_le _)

theorem readiness_timeout_witness :
    wait_for_serial "emulator-5554" 3 (fun _ => []) = .discoveryTimeout 2 ∧
    wait_for_boot_complete 3 (fun _ => .error (.otherExc "adb")) =
      .bootTimeout 2 :=
  ⟨(readiness_phases_time_out "emulator-5554" 3 (fun _ => [])
      (fun _ => .error (.otherExc "adb"))
      (fun k _ => List.not_mem_nil _) (fun k _ => rfl)).1,
    (readiness_phases_time_out "emulator-5554" 3 (fun _ => [])
      (fun _ => .error (.otherExc "adb"))
      (fun k _ => List.not_mem_nil _) (fun k _ => rfl)).2.1⟩

/-- The payload driver's trace contains no semaphore events, whatever the
three command outcomes. -/
theorem open_cpi_no_sem_events (serial apk pkg : String) (rt uid : Nat)
    (vr ir lr : Except PyErr CmdResult) :
    (open_cpi_and_install serial apk pkg rt uid vr ir lr).1.count Ev.acquire = 0 ∧
    (open_cpi_and_install serial apk pkg rt uid vr ir lr).1.count Ev.release = 0 := by
  rcases vr with e1 | r1 <;> rcases ir with e2 | r2 <;> rcases lr with e3 | r3 <;>
    simp [open_cpi_and_install, List.count_cons]

theorem getLast?_cons_concat {α : Type} (a : α) (l : List α) (x : α) :
    (a :: (l ++ [x])).getLast? = some x := by
  rw [← List.cons_append, List.getLast?_concat]

/-- Claim C6: a worker that acquired the concurrency token releases it exactly
once, as its final action, on every exit path; a worker that never
acquired one never releases. -/
theorem token_release_discipline (avd_name : String) (port : Nat)
    (env : WorkerEnv) :
    (Ev.acquire ∈ (instance_worker avd_name port env).1 →
      (instance_worker avd_name port env).1.count Ev.release = 1 ∧
      (instance_worker avd_name port env).1.getLast? = some Ev.release) ∧
    (Ev.acquire ∉ (instance_worker avd_name port env).1 →
      (instance_worker avd_name port env).1.count Ev.release = 0) := by
  unfold instance_worker workerTry
  cases env.acquireExn with
  | some e => simp
  | none =>
    cases env.startR with
    | error e => simp
    | ok _ =>
      cases hws : wait_for_serial (serialOf port) BOOT_TIMEOUT env.enum with
      | discoveryTimeout n => simp
      | found k =>
        cases hwb : wait_for_boot_complete BOOT_TIMEOUT env.boot with
        | bootTimeout n => simp
        | booted k2 =>
          obtain ⟨hac, hrel⟩ := open_cpi_no_sem_events (serialOf port) APK_PATH
            PACKAGE_NAME RUN_TIME env.userId env.viewR env.installR env.launchR
          constructor
          · intro _
            constructor
            · simp [List.count_append, List.count_cons, hrel]
            · simp [getLast?_cons_concat]
          · intro hna
            simp at hna

theorem token_release_witness :
    Ev.acquire ∉ (instance_worker "MyAVD3_copy1" 5554 stubEnv).1 ∧
    (instance_worker "MyAVD3_copy1" 5554 stubEnv).1.count Ev.release = 0 :=
  ⟨by decide,
    (token_release_discipline "MyAVD3_copy1" 5554 stubEnv).2 (by decide)⟩

/-- Claim C7: once preparation (cloning and port reservation) has succeeded, the
run always finishes with exit status 0, whatever each worker's stages do —
every stage exception is absorbed into that worker's `Failed` status — and
worker `i`'s recorded status is computed from its own environment alone,
so failures do not cross between workers or into the orchestrator. -/
theorem worker_failures_isolated (total : Nat) (existing : List String)
    (cloneR : String → Except PyErr Unit) (envs : Nat → WorkerEnv)
    (ports : List Nat) (htotal : 1 ≤ total)
    (hclone : ∀ name, cloneR name = .ok ())
    (halloc : reservePorts total existing = some ports) :
    (∃ tr, mainRun total cloneR existing envs =
      (tr, (List.range total).map (fun i =>
        (instance_worker ((avdNames total).getD i "") (ports.getD i 0)
          (envs i)).2), .ok 0)) ∧
    ∀ i, i < total →
      ((mainRun total cloneR existing envs).2.1)[i]? =
        some (instance_worker ((avdNames total).getD i "") (ports.getD i 0)
          (envs i)).2 := by
  have hlt : ¬ total < 1 := by omega
  have hmain : (mainRun total cloneR existing envs).2 =
      ((List.range total).map (fun i =>
        (instance_worker ((avdNames total).getD i "") (ports.getD i 0)
          (envs i)).2), Except.ok 0) := by
    unfold mainRun
    simp [hlt, cloneAllGo_ok cloneR hclone, halloc, List.map_map,
      Function.comp]
  constructor
  · refine ⟨(mainRun total cloneR existing envs).1, ?_⟩
    have heta : mainRun total cloneR existing envs =
        ((mainRun total cloneR existing envs).1,
          (mainRun total cloneR existing envs).2) := rfl
    rw [heta, hmain]
  · intro i hi
    have h1 : ((mainRun total cloneR existing envs).2).1 =
        (List.range total).map (fun i =>
          (instance_worker ((avdNames total).getD i "") (ports.getD i 0)
            (envs i)).2) := congrArg Prod.fst hmain
    rw [h1, List.getElem?_map, List.getElem?_range hi]
    rfl

theorem worker_isolation_witness :
    1 ≤ 1 ∧ reservePorts 1 [] = some [5554] ∧
    (∃ tr, mainRun 1 (fun _ => .ok ()) [] (fun _ => stubEnv) =
      (tr, (List.range 1).map (fun i =>
        (instance_worker ((avdNames 1).getD i "")
          (([5554] : List Nat).getD i 0) stubEnv).2), .ok 0)) :=
  ⟨by decide, by decide,
    (worker_failures_isolated 1 [] (fun _ => .ok ()) (fun _ => stubEnv) [5554]
      (by decide) (fun _ => rfl) (by decide)).1⟩

/-- Claim C8: the payload driver performs its six steps — open the link built
from the drawn identifier, settle 30, install, settle 10, launch, hold for
the run duration — in that fixed order whenever no command raises, and the
step sequence (diagnostic install-output log removed) is identical for all
command results: results are captured for diagnostics, never inspected for
control flow. -/
theorem payload_fixed_sequence (serial apk pkg : String)
    (run_time user_id : Nat) (r1 r2 r3 : CmdResult) :
    open_cpi_and_install serial apk pkg run_time user_id
        (.ok r1) (.ok r2) (.ok r3) =
      ([.viewCmd serial (BASE_URL.replace "{userId}" (toString user_id)),
        .sleepEv 30, .installCmd serial apk, .installLog r2.stdout r2.stderr,
        .sleepEv 10, .launchCmd serial pkg, .sleepEv run_time], .ok ()) ∧
    ∀ (q1 q2 q3 : CmdResult),
      ((open_cpi_and_install serial apk pkg run_time user_id
          (.ok q1) (.ok q2) (.ok q3)).1.filter (fun e => !isInstallLog e)) =
        ((open_cpi_and_install serial apk pkg run_time user_id
          (.ok r1) (.ok r2) (.ok r3)).1.filter (fun e => !isInstallLog e)) := by
  exact ⟨rfl, fun q1 q2 q3 => rfl⟩

/-! ### Counting-permit invariant -/

theorem countP_set_add {α : Type} (p : α → Bool) :
    ∀ (l : List α) (i : Nat) (hi : i < l.length) (x : α),
      (l.set i x).countP p + (if p (l.get ⟨i, hi⟩) then 1 else 0) =
        l.countP p + (if p x then 1 else 0) := by
  intro l
  induction l with
  | nil => intro i hi x; simp at hi
  | cons a t ih =>
    intro i hi x
    cases i with
    | zero =>
      simp only [List.set_cons_zero, List.countP_cons, List.get]
      omega
    | succ i =>
      have hi' : i < t.length := by simpa using hi
      have := ih i hi' x
      simp only [List.set_cons_succ, List.countP_cons, List.get]
      omega

/-- One scheduler step preserves the permit-count invariant and the number
of workers. -/
theorem semStep_invariant {n : Nat} {s t : SemState} (hstep : SemStep s t)
    (hinv : s.permits + activeCount s = n) :
    t.permits + activeCount t = n ∧ t.phases.length = s.phases.length := by
  cases hstep with
  | acquire i hi hph hp =>
    have hcnt := countP_set_add (fun p => p == WPhase.active) s.phases i hi
      WPhase.active
    rw [hph] at hcnt
    simp only [show (WPhase.pending == WPhase.active) = false from rfl,
      show (WPhase.active == WPhase.active) = true from rfl] at hcnt
    simp at hcnt
    unfold activeCount at hinv ⊢
    refine ⟨?_, by simp⟩
    show s.permits - 1 + (s.phases.set i WPhase.active).countP
      (fun p => p == WPhase.active) = n
    omega
  | release i hi hph =>
    have hcnt := countP_set_add (fun p => p == WPhase.active) s.phases i hi
      WPhase.done
    rw [hph] at hcnt
    simp only [show (WPhase.active == WPhase.active) = true from rfl,
      show (WPhase.done == WPhase.active) = false from rfl] at hcnt
    simp at hcnt
    unfold activeCount at hinv ⊢
    refine ⟨?_, by simp⟩
    show s.permits + 1 + (s.phases.set i WPhase.done).countP
      (fun p => p == WPhase.active) = n
    omega

/-- Invariant of the permit system: free permits plus active workers is
always the configured limit, and the worker count never changes. -/
theorem semReach_invariant {n m : Nat} {s : SemState} (h : Reach n m s) :
    s.permits + activeCount s = n ∧ s.phases.length = m := by
  unfold Reach at h
  induction h with
  | refl =>
    have h0 : activeCount (semInit n m) = 0 := by
      apply List.countP_eq_zero.mpr
      intro a ha
      have := List.eq_of_mem_replicate ha
      subst this
      decide
    exact ⟨by simp [semInit] at h0 ⊢; omega, by simp [semInit]⟩
  | tail hsteps hstep ih =>
    obtain ⟨hinv, hlen⟩ := ih
    obtain ⟨h1, h2⟩ := semStep_invariant hstep hinv
    exact ⟨h1, h2.trans hlen⟩

/-- Claim C9: with a concurrency limit of `n` and `m ≥ n` planned workers, in
every state the scheduler can reach, at most `n` workers are
simultaneously past the launch gate and before their terminal state. -/
theorem concurrency_bounded (n m : Nat) (s : SemState) (hnm : n ≤ m)
    (hreach : Reach n m s) : activeCount s ≤ n := by
  have h := semReach_invariant hreach
  omega

theorem concurrency_witness :
    CONCURRENT_LIMIT ≤ 3 ∧ Reach CONCURRENT_LIMIT 3 (semInit CONCURRENT_LIMIT 3) ∧
    activeCount (semInit CONCURRENT_LIMIT 3) ≤ CONCURRENT_LIMIT :=
  ⟨by decide, Relation.ReflTransGen.refl,
    concurrency_bounded CONCURRENT_LIMIT 3 _ (by decide)
      Relation.ReflTransGen.refl⟩

/-- Claim C10: the live-endpoint enumeration is total — a raised enumeration
command yields the empty set, indistinguishable from no endpoints — and on
a returned output it collects exactly the serials whose second
whitespace-separated field is `"device"`, skipping the header line. -/
theorem enumeration_total_and_exact (cmd : Except PyErr CmdResult) :
    (∀ e, cmd = .error e → list_adb_devices cmd = []) ∧
    (∀ r, cmd = .ok r → ∀ s,
      s ∈ list_adb_devices cmd ↔
        ∃ line ∈ (pySplitLines (pyStrip r.stdout)).drop 1,
          (pySplitWs line)[0]? = some s ∧
          (pySplitWs line)[1]? = some "device") := by
  constructor
  · rintro e rfl
    rfl
  · rintro r rfl s
    unfold list_adb_devices
    rw [mem_foldl_addDeviceLine]
    simp

theorem enumeration_witness :
    list_adb_devices (.error (.otherExc "adb missing")) = ([] : List String) :=
  (enumeration_total_and_exact (.error (.otherExc "adb missing"))).1
    (.otherExc "adb missing") rfl

end CPI
